import Mathlib

/-!
Verification of the prayer-times application core (script.js).

The JavaScript source is shallowly embedded: pure computations become Lean
functions, the mutable pieces of `this.state` that the verified functions
touch become explicit values threaded through the functions, and code that
throws is modelled with `Option`/`Except` (`none`/`.error` = an exception was
thrown).  Instants and times-of-day are measured in integer milliseconds from
the local midnight of the canonical day, matching the source's use of
`Date.getTime()` where every compared value lies on the same calendar day
(`getTimeInMs` anchors all entries to "today"), so the common day origin
cancels out of every comparison.
-/

/-- Constant `this.PRAYER_NAMES` (script.js line 13): the canonical entry order. -/
def PRAYER_NAMES : List String :=
  ["Imsak", "Subuh", "Syuruk", "Zohor", "Asar", "Maghrib", "Isyak"]

/-- Constant `this.AUDIO_TRIGGER_THRESHOLD` (script.js line 19): 1 second tolerance. -/
def AUDIO_TRIGGER_THRESHOLD : Nat := 1000

/-- Constant `this.RECITATION_OFFSET_MIN` (script.js line 16). -/
def RECITATION_OFFSET_MIN : Nat := 10

/-- Message `this.locale.messages.allPrayersComplete` (script.js line 47). -/
def allPrayersCompleteMsg : String :=
  "Semua waktu solat untuk hari ini telah selesai."

/-- A parsed 24-hour time of day, the result shape of `parseTime`. -/
structure Time24 where
  hour : Nat
  minute : Nat
deriving Repr, DecidableEq

/-- JavaScript `str.split(sep)` for a one-character separator (the only kind
the source uses: `" "`, `":"`, `","`, `"\n"`), over the character list:
`"".split(s) = [""]`, and adjacent separators yield empty fields. -/
def jsSplit (sep : Char) : List Char → List (List Char)
  | [] => [[]]
  | c :: rest =>
    let r := jsSplit sep rest
    if c = sep then [] :: r
    else (c :: r.headD []) :: r.tail

/-- Function `jsSplit` at the `String` level. -/
def splitOnChar (sep : Char) (s : String) : List String :=
  (jsSplit sep s.data).map String.mk

/-- JavaScript `str.trim()`: strip whitespace from both ends. -/
def jsTrim (cs : List Char) : List Char :=
  ((cs.dropWhile Char.isWhitespace).reverse.dropWhile Char.isWhitespace).reverse

/-- Function `jsTrim` at the `String` level. -/
def strTrim (s : String) : String :=
  String.mk (jsTrim s.data)

/-- Value of a run of decimal digits, most significant first
(the digit-consuming core of JavaScript `parseInt(str, 10)`). -/
def digitsVal (cs : List Char) : Option Nat :=
  let ds := cs.takeWhile Char.isDigit
  if ds.isEmpty then none
  else some (ds.foldl (fun acc c => acc * 10 + (c.toNat - '0'.toNat)) 0)

/-- JavaScript `parseInt(str, 10)`: skip leading whitespace, read an optional
sign and then the longest run of decimal digits, ignoring any trailing
characters; `none` models the `NaN` result when no digit is found. -/
def jsParseInt (s : String) : Option Int :=
  match s.data.dropWhile Char.isWhitespace with
  | '-' :: rest => (digitsVal rest).map (fun n => -(n : Int))
  | '+' :: rest => (digitsVal rest).map (fun n => (n : Int))
  | cs => (digitsVal cs).map (fun n => (n : Int))

/-- Function `parseTime` (script.js lines 346-394).  Throwing is modelled as `none`:
trim, split on a single space into time and modifier, split the time on ":",
`parseInt` both components, range-check them, check the modifier, and convert
to 24-hour form (12 AM ↦ 0, 12 PM ↦ 12). -/
def parseTime (timeStr : String) : Option Time24 :=
  match splitOnChar ' ' (strTrim timeStr) with
  | [time, modifier] =>
    match splitOnChar ':' time with
    | [hourStr, minuteStr] =>
      match jsParseInt hourStr, jsParseInt minuteStr with
      | some hour, some minute =>
        if hour < 1 ∨ 12 < hour then none
        else if minute < 0 ∨ 59 < minute then none
        else if modifier ≠ "AM" ∧ modifier ≠ "PM" then none
        else some ⟨(if modifier = "PM" ∧ hour ≠ 12 then hour + 12
                    else if modifier = "AM" ∧ hour = 12 then 0
                    else hour).toNat, minute.toNat⟩
      | _, _ => none
    | _ => none
  | _ => none

/-- Function `getTimeInMs` (script.js lines 399-403), with the common "today midnight"
origin normalised to 0: the instant `hour:minute` today, in ms. -/
def getTimeInMs (hour minute : Nat) : Nat :=
  (hour * 60 + minute) * 60000

/-- A day schedule as the resolver sees it: `this.state.todayPrayerTimes`
lookup, mapping an entry name to its raw time string when present. -/
def Schedule : Type := String → Option String

/-- The instant of `sched`'s entry `name` today, when the entry is present
and parses (`parseTime` throwing, caught by the resolver loops, is `none`). -/
def entryMs (sched : Schedule) (name : String) : Option Nat :=
  (sched name).bind fun ts => (parseTime ts).map fun t => getTimeInMs t.hour t.minute

/-- The entries of a schedule that are present and parse, in canonical order,
each paired with its instant: the sequence of entries the resolver loops
actually act on. -/
def entryList (sched : Schedule) : List (String × Nat) :=
  PRAYER_NAMES.filterMap fun name => (entryMs sched name).map fun t => (name, t)

/-- Function `checkAndUpdatePrayerHighlight` (script.js lines 509-533), the current
prayer computation: scan `PRAYER_NAMES` in order, keeping the last entry whose
instant is ≤ now; absent or unparseable entries are skipped (`continue`). -/
def checkAndUpdatePrayerHighlight (sched : Schedule) (nowMs : Nat) : Option String :=
  PRAYER_NAMES.foldl (fun currentPrayer name =>
    match entryMs sched name with
    | none => currentPrayer
    | some timeMs => if timeMs ≤ nowMs then some name else currentPrayer) none

/-- Function `updateNextPrayerTimer` (script.js lines 569-620), the next-prayer
computation: over all entries except `"Imsak"`, keep the entry with the
smallest instant strictly greater than now (`timeMs > nowMs && timeMs <
nextTimeMs`, starting from `Infinity`).  `none` models the final state
`nextPrayer = null`, `nextTimeMs = null`. -/
def updateNextPrayerTimer (sched : Schedule) (nowMs : Nat) : Option (String × Nat) :=
  (PRAYER_NAMES.filter (fun name => name != "Imsak")).foldl (fun acc name =>
    match entryMs sched name, acc with
    | none, _ => acc
    | some timeMs, none => if nowMs < timeMs then some (name, timeMs) else acc
    | some timeMs, some best =>
        if nowMs < timeMs ∧ timeMs < best.2 then some (name, timeMs) else acc) none

/-- Function `formatTimeDifference` (script.js lines 625-631): decompose a millisecond
difference into (hours, minutes, seconds) by integer division. -/
def formatTimeDifference (diffMs : Nat) : Nat × Nat × Nat :=
  let totalSecs := diffMs / 1000
  (totalSecs / 3600, (totalSecs % 3600) / 60, totalSecs % 60)

/-- JavaScript `String(n).padStart(2, '0')` as used when rendering the countdown. -/
def pad2 (n : Nat) : String :=
  if n < 10 then "0" ++ toString n else toString n

/-- The text `updateNextPrayerTimer` writes to the timer element (script.js
lines 607-619): the completion message when there is no next prayer, else the
formatted countdown `next.time − now`. -/
def nextPrayerDisplay (sched : Schedule) (nowMs : Nat) : String :=
  match updateNextPrayerTimer sched nowMs with
  | none => allPrayersCompleteMsg
  | some (name, timeMs) =>
    let d := formatTimeDifference (timeMs - nowMs)
    "Waktu Solat (" ++ name ++ ") dalam " ++ pad2 d.1 ++ "j " ++
      pad2 d.2.1 ++ "m " ++ pad2 d.2.2 ++ "s"

/-- Function `shouldPlayAudio` (script.js lines 666-669): fire iff now is within the
trigger threshold of the target and the file has not already been played. -/
def shouldPlayAudio (nowMs targetMs : Int) (audioPlayed : Finset String)
    (filename : String) : Bool :=
  decide ((nowMs - targetMs).natAbs < AUDIO_TRIGGER_THRESHOLD) &&
    decide (filename ∉ audioPlayed)

/-- Call `this.state.audioPlayed.add(filename)` (script.js lines 652, 659): mark a
cue file as fired. -/
def markFired (filename : String) (audioPlayed : Finset String) : Finset String :=
  insert filename audioPlayed

/-- One tick of `checkPrayerAudio` (script.js lines 636-661) restricted to a
single cue file: play it and add it to `audioPlayed` exactly when
`shouldPlayAudio` says so; returns the new fired set and whether it fired. -/
def checkCueOnce (targetMs : Int) (filename : String) (audioPlayed : Finset String)
    (nowMs : Int) : Finset String × Bool :=
  if shouldPlayAudio nowMs targetMs audioPlayed filename then
    (markFired filename audioPlayed, true)
  else (audioPlayed, false)

/-- Repeated polling of one cue (the 1-second `updateClock` loop calling
`checkPrayerAudio`): thread the fired set through the given instants and
count how many polls fired. -/
def pollCue (targetMs : Int) (filename : String) :
    Finset String → List Int → Nat
  | _, [] => 0
  | s, nowMs :: rest =>
    let r := checkCueOnce targetMs filename s nowMs
    (if r.2 then 1 else 0) + pollCue targetMs filename r.1 rest

/-- The schedule of the worked example in the specification:
`Subuh = 05:59`, `Zohor = 13:05`, in the CSV's 12-hour format. -/
def exampleSchedule : Schedule := fun name =>
  if name = "Subuh" then some "5:59 AM"
  else if name = "Zohor" then some "1:05 PM"
  else none

/-- A fold that skips elements on which `f` fails is the fold over
`l.filterMap f`. -/
theorem foldl_skipNone {α β γ : Type} (f : α → Option β) (step : γ → β → γ) :
    ∀ (l : List α) (acc : γ),
      l.foldl (fun cur x => match f x with | none => cur | some b => step cur b) acc
        = (l.filterMap f).foldl step acc := by
  intro l
  induction l with
  | nil => intro acc; rfl
  | cons x rest ih =>
    intro acc
    cases hfx : f x <;> simp [List.filterMap_cons, hfx, ih]

/-- A last-write-wins fold computes the last element satisfying `p`, i.e. the
first satisfying element of the reversed list (or the accumulator if none). -/
theorem foldl_lastWins {α β : Type} (p : α → Prop) [DecidablePred p] (g : α → β) :
    ∀ (l : List α) (acc : Option β),
      l.foldl (fun cur x => if p x then some (g x) else cur) acc
        = match l.reverse.find? (fun x => decide (p x)) with
          | some x => some (g x)
          | none => acc := by
  intro l
  induction l with
  | nil => intro acc; rfl
  | cons x rest ih =>
    intro acc
    rw [List.foldl_cons, ih, List.reverse_cons, List.find?_append]
    cases hr : rest.reverse.find? (fun x => decide (p x)) with
    | some y => simp [Option.or]
    | none =>
      by_cases hp : p x <;> simp [Option.or, List.find?, hp]

/-- Searching with `find?` gives the head of the filtered list. -/
theorem find?_eq_head?_filter {α : Type} (p : α → Bool) :
    ∀ l : List α, l.find? p = (l.filter p).head? := by
  intro l
  induction l with
  | nil => rfl
  | cons x rest ih =>
    cases hp : p x
    · rw [List.find?_cons_of_neg _ (by simp [hp]), List.filter_cons_of_neg (by simp [hp]), ih]
    · rw [List.find?_cons_of_pos _ hp, List.filter_cons_of_pos hp, List.head?_cons]

/-- The current-prayer scan is the last-write-wins fold over the parsed
entry list. -/
theorem check_eq_fold_entryList (sched : Schedule) (nowMs : Nat) :
    checkAndUpdatePrayerHighlight sched nowMs
      = (entryList sched).foldl
          (fun cur pr => if pr.2 ≤ nowMs then some pr.1 else cur) none := by
  unfold checkAndUpdatePrayerHighlight entryList
  rw [← foldl_skipNone (fun name => (entryMs sched name).map fun t => (name, t))
        (fun cur pr => if pr.2 ≤ nowMs then some pr.1 else cur)]
  congr 1
  funext cur name
  cases entryMs sched name <;> rfl

/-- The current prayer is the first entry of the reversed entry list whose
instant is ≤ now. -/
theorem check_eq_find? (sched : Schedule) (nowMs : Nat) :
    checkAndUpdatePrayerHighlight sched nowMs
      = ((entryList sched).reverse.find?
            (fun pr => decide (pr.2 ≤ nowMs))).map Prod.fst := by
  rw [check_eq_fold_entryList, foldl_lastWins (fun pr : String × Nat => pr.2 ≤ nowMs) Prod.fst]
  cases (entryList sched).reverse.find? (fun pr => decide (pr.2 ≤ nowMs)) <;> rfl

/-- The current prayer is the last entry of the entry list whose instant
is ≤ now. -/
theorem check_eq_getLast? (sched : Schedule) (nowMs : Nat) :
    checkAndUpdatePrayerHighlight sched nowMs
      = ((entryList sched).filter (fun pr => decide (pr.2 ≤ nowMs))).getLast?.map Prod.fst := by
  rw [check_eq_find?, List.getLast?_eq_head?_reverse, ← List.filter_reverse,
    ← find?_eq_head?_filter]

/-- C1: for every loaded day schedule and instant `now`,
`checkAndUpdatePrayerHighlight` computes the current prayer as the last entry
in the canonical order Imsak, Subuh, Syuruk, Zohor, Asar, Maghrib, Isyak whose
time-of-day is ≤ now; it computes none when now precedes every entry's time;
and (for the data-model invariant of strictly increasing entry times) at `now`
exactly equal to an entry's time that entry becomes current (closed lower
bound). -/
theorem C1_current_prayer_resolution (sched : Schedule) (nowMs : Nat) :
    checkAndUpdatePrayerHighlight sched nowMs
        = ((entryList sched).filter (fun pr => decide (pr.2 ≤ nowMs))).getLast?.map Prod.fst
      ∧ ((∀ pr ∈ entryList sched, nowMs < pr.2) →
          checkAndUpdatePrayerHighlight sched nowMs = none)
      ∧ (List.Pairwise (fun a b => a.2 < b.2) (entryList sched) →
          ∀ pr ∈ entryList sched,
            checkAndUpdatePrayerHighlight sched pr.2 = some pr.1) := by
  refine ⟨check_eq_getLast? sched nowMs, ?_, ?_⟩
  · intro h
    rw [check_eq_getLast?]
    have hnil : (entryList sched).filter (fun pr => decide (pr.2 ≤ nowMs)) = [] := by
      rw [List.filter_eq_nil_iff]
      intro a ha
      simp only [decide_eq_true_eq]
      exact Nat.not_le.mpr (h a ha)
    rw [hnil]; rfl
  · intro hsort pr hpr
    rw [check_eq_getLast?]
    obtain ⟨s, t, hst⟩ := List.append_of_mem hpr
    rw [hst] at hsort ⊢
    rw [List.pairwise_append] at hsort
    have h1 : ∀ a ∈ s, a.2 < pr.2 :=
      fun a ha => hsort.2.2 a ha pr (List.mem_cons_self _ _)
    have h2 : ∀ b ∈ t, pr.2 < b.2 :=
      fun b hb => (List.pairwise_cons.mp hsort.2.1).1 b hb
    have hfs : s.filter (fun q => decide (q.2 ≤ pr.2)) = s :=
      List.filter_eq_self.mpr fun a ha => by
        simp only [decide_eq_true_eq]; exact Nat.le_of_lt (h1 a ha)
    have hft : (pr :: t).filter (fun q => decide (q.2 ≤ pr.2)) = [pr] := by
      rw [List.filter_cons_of_pos (by simp)]
      have : t.filter (fun q => decide (q.2 ≤ pr.2)) = [] := by
        rw [List.filter_eq_nil_iff]
        intro b hb
        simp only [decide_eq_true_eq]
        exact Nat.not_le.mpr (h2 b hb)
      rw [this]
    rw [List.filter_append, hfs, hft, List.getLast?_concat]
    rfl

/-- Witness for C1 on the specification's example schedule: before the first
entry (`now = 0`) the current prayer is none, and at `now` exactly
`Subuh = 05:59` the current prayer is Subuh. -/
theorem C1_current_prayer_resolution_witness :
    checkAndUpdatePrayerHighlight exampleSchedule 0 = none
      ∧ checkAndUpdatePrayerHighlight exampleSchedule 21540000 = some "Subuh" :=
  ⟨(C1_current_prayer_resolution exampleSchedule 0).2.1 (by decide),
   (C1_current_prayer_resolution exampleSchedule 21540000).2.2 (by decide)
     ("Subuh", 21540000) (by decide)⟩

/-- The parsed entries of a schedule together with their position in
`PRAYER_NAMES` (proof-side companion of `entryList`). -/
def entryListIdx (sched : Schedule) : List (Nat × String × Nat) :=
  PRAYER_NAMES.enum.filterMap fun p => (entryMs sched p.2).map fun t => (p.1, p.2, t)

/-- The current-prayer scan as a search through the indexed entries, newest
first. -/
theorem check_eq_find?_idx (sched : Schedule) (nowMs : Nat) :
    checkAndUpdatePrayerHighlight sched nowMs
      = ((entryListIdx sched).reverse.find?
            (fun q => decide (q.2.2 ≤ nowMs))).map (fun q => q.2.1) := by
  have h1 : checkAndUpdatePrayerHighlight sched nowMs
      = (entryListIdx sched).foldl
          (fun cur q => if q.2.2 ≤ nowMs then some q.2.1 else cur) none := by
    unfold checkAndUpdatePrayerHighlight entryListIdx
    rw [← foldl_skipNone (fun p : Nat × String => (entryMs sched p.2).map fun t => (p.1, p.2, t))
          (fun cur q => if q.2.2 ≤ nowMs then some q.2.1 else cur)]
    conv_lhs => rw [← List.enum_map_snd PRAYER_NAMES, List.foldl_map]
    congr 1
    funext cur p
    cases entryMs sched p.2 <;> rfl
  rw [h1, foldl_lastWins (fun q : Nat × String × Nat => q.2.2 ≤ nowMs) (fun q => q.2.1)]
  cases (entryListIdx sched).reverse.find? (fun q => decide (q.2.2 ≤ nowMs)) <;> rfl

/-- The indices recorded in `entryListIdx` are strictly increasing. -/
theorem entryListIdx_pairwise (sched : Schedule) :
    List.Pairwise (fun a b => a.1 < b.1) (entryListIdx sched) := by
  unfold entryListIdx
  rw [List.pairwise_filterMap]
  have h : List.Pairwise (fun p q : Nat × String => p.1 < q.1) PRAYER_NAMES.enum := by decide
  refine List.Pairwise.imp ?_ h
  intro p q hpq b hb b' hb'
  cases ht : entryMs sched p.2 <;> rw [ht] at hb <;> simp at hb
  cases ht' : entryMs sched q.2 <;> rw [ht'] at hb' <;> simp at hb'
  subst hb; subst hb'
  exact hpq

/-- An indexed entry's recorded index is its position in `PRAYER_NAMES`. -/
theorem entryListIdx_indexOf (sched : Schedule) :
    ∀ q ∈ entryListIdx sched, PRAYER_NAMES.indexOf q.2.1 = q.1 := by
  intro q hq
  unfold entryListIdx at hq
  rw [List.mem_filterMap] at hq
  obtain ⟨p, hp, hfq⟩ := hq
  cases ht : entryMs sched p.2 <;> rw [ht] at hfq <;> simp at hfq
  subst hfq
  have hall : ∀ p ∈ PRAYER_NAMES.enum, PRAYER_NAMES.indexOf p.2 = p.1 := by decide
  exact hall p hp

/-- On a list whose `idx` values strictly decrease, weakening the search
predicate can only move the found element to a larger `idx`. -/
theorem find?_mono_idx {α : Type} (idx : α → Nat) (p q : α → Bool)
    (himp : ∀ x, p x = true → q x = true) :
    ∀ rl : List α, List.Pairwise (fun a b => idx b < idx a) rl →
      ∀ a, rl.find? p = some a →
        ∃ b, rl.find? q = some b ∧ idx a ≤ idx b := by
  intro rl
  induction rl with
  | nil => intro _ a h; cases h
  | cons x rest ih =>
    intro hpw a hfind
    have hrest := List.pairwise_cons.mp hpw
    cases hqx : q x with
    | true =>
      refine ⟨x, by rw [List.find?_cons_of_pos _ hqx], ?_⟩
      cases hpx : p x with
      | true =>
        rw [List.find?_cons_of_pos _ hpx] at hfind
        cases hfind
        exact Nat.le_refl _
      | false =>
        rw [List.find?_cons_of_neg _ (by simp [hpx])] at hfind
        exact Nat.le_of_lt (hrest.1 a (List.mem_of_find?_eq_some hfind))
    | false =>
      have hpx : p x = false := by
        cases hpx : p x
        · rfl
        · exact absurd (himp x hpx) (by simp [hqx])
      rw [List.find?_cons_of_neg _ (by simp [hpx])] at hfind
      rw [List.find?_cons_of_neg _ (by simp [hqx])]
      exact ih hrest.2 a hfind

/-- C7: for every day schedule with strictly increasing entry times, the
current prayer is monotone as now advances: for `now1 ≤ now2`, either the
current prayer at `now1` is none, or both instants have a current prayer and
the one at `now1` is at or before the one at `now2` in the canonical order
(so once non-none it never returns to none). -/
theorem C7_current_prayer_monotone (sched : Schedule) (now1 now2 : Nat)
    (h12 : now1 ≤ now2)
    (hsort : List.Pairwise (fun a b => a.2 < b.2) (entryList sched)) :
    checkAndUpdatePrayerHighlight sched now1 = none
      ∨ ∃ n1 n2, checkAndUpdatePrayerHighlight sched now1 = some n1
          ∧ checkAndUpdatePrayerHighlight sched now2 = some n2
          ∧ PRAYER_NAMES.indexOf n1 ≤ PRAYER_NAMES.indexOf n2 := by
  rcases hf1 : (entryListIdx sched).reverse.find? (fun q => decide (q.2.2 ≤ now1)) with _ | q1
  · left
    rw [check_eq_find?_idx, hf1]
    rfl
  · right
    have hpw : List.Pairwise (fun a b : Nat × String × Nat => a.1 > b.1)
        (entryListIdx sched).reverse := by
      rw [List.pairwise_reverse]
      exact entryListIdx_pairwise sched
    obtain ⟨q2, hf2, hle⟩ := find?_mono_idx (fun q => q.1)
      (fun q => decide (q.2.2 ≤ now1)) (fun q => decide (q.2.2 ≤ now2))
      (fun x hx => by
        have hx' : x.2.2 ≤ now1 := of_decide_eq_true hx
        exact decide_eq_true (by omega))
      (entryListIdx sched).reverse hpw q1 hf1
    have hm1 : q1 ∈ entryListIdx sched :=
      List.mem_reverse.mp (List.mem_of_find?_eq_some hf1)
    have hm2 : q2 ∈ entryListIdx sched :=
      List.mem_reverse.mp (List.mem_of_find?_eq_some hf2)
    refine ⟨q1.2.1, q2.2.1, ?_, ?_, ?_⟩
    · rw [check_eq_find?_idx, hf1]; rfl
    · rw [check_eq_find?_idx, hf2]; rfl
    · rw [entryListIdx_indexOf sched q1 hm1, entryListIdx_indexOf sched q2 hm2]
      exact hle

/-- Witness for C7 on the example schedule: between `now = 05:59:00` and
`now = 13:05:01` the current prayer advances from Subuh to Zohor. -/
theorem C7_current_prayer_monotone_witness :
    checkAndUpdatePrayerHighlight exampleSchedule 21540000 = none
      ∨ ∃ n1 n2, checkAndUpdatePrayerHighlight exampleSchedule 21540000 = some n1
          ∧ checkAndUpdatePrayerHighlight exampleSchedule 47101000 = some n2
          ∧ PRAYER_NAMES.indexOf n1 ≤ PRAYER_NAMES.indexOf n2 :=
  C7_current_prayer_monotone exampleSchedule 21540000 47101000 (by decide) (by decide)

/-- The parsed entries the timer loop iterates over: canonical order with
`"Imsak"` excluded (`prayersForTimer`, script.js line 583). -/
def entryListNI (sched : Schedule) : List (String × Nat) :=
  (PRAYER_NAMES.filter (fun name => name != "Imsak")).filterMap
    fun name => (entryMs sched name).map fun t => (name, t)

/-- One step of the timer loop body (script.js lines 593-596), on a parsed
entry: adopt the entry iff its instant is after now and before the best so
far (`Infinity` = `none`). -/
def nextStep (now : Nat) : Option (String × Nat) → (String × Nat) → Option (String × Nat)
  | none, pr => if now < pr.2 then some pr else none
  | some best, pr => if now < pr.2 ∧ pr.2 < best.2 then some pr else some best

/-- The timer loop is the `nextStep` fold over the parsed non-Imsak entries. -/
theorem next_eq_fold (sched : Schedule) (now : Nat) :
    updateNextPrayerTimer sched now = (entryListNI sched).foldl (nextStep now) none := by
  unfold updateNextPrayerTimer entryListNI
  rw [← foldl_skipNone (fun name => (entryMs sched name).map fun t => (name, t))
        (nextStep now)]
  congr 1
  funext acc name
  cases entryMs sched name <;> cases acc <;> rfl

/-- Specification of the `nextStep` fold: starting from an accumulator that is
`none` or a future entry, the fold returns `none` exactly when the list holds
no entry after `now`, and otherwise returns a future entry of the list (or the
accumulator) of minimal instant among the eligible ones. -/
theorem foldl_min_spec (now : Nat) :
    ∀ (l : List (String × Nat)) (acc : Option (String × Nat)),
      (∀ b, acc = some b → now < b.2) →
      (l.foldl (nextStep now) acc = none → acc = none ∧ ∀ p ∈ l, p.2 ≤ now)
      ∧ (∀ b, l.foldl (nextStep now) acc = some b →
          now < b.2 ∧ (acc = some b ∨ b ∈ l)
          ∧ (∀ a, acc = some a → b.2 ≤ a.2)
          ∧ (∀ p ∈ l, now < p.2 → b.2 ≤ p.2)) := by
  intro l
  induction l with
  | nil =>
    intro acc hacc
    refine ⟨fun h => ⟨h, by simp⟩, fun b hb => ⟨hacc b hb, Or.inl hb, ?_, by simp⟩⟩
    intro a ha
    rw [ha] at hb
    cases hb
    exact Nat.le_refl _
  | cons pr rest ih =>
    intro acc hacc
    rw [List.foldl_cons]
    have hacc' : ∀ b, nextStep now acc pr = some b → now < b.2 := by
      intro b hb
      cases acc with
      | none =>
        simp only [nextStep] at hb
        by_cases hpr : now < pr.2
        · rw [if_pos hpr] at hb; cases hb; exact hpr
        · rw [if_neg hpr] at hb; cases hb
      | some best =>
        simp only [nextStep] at hb
        by_cases hpr : now < pr.2 ∧ pr.2 < best.2
        · rw [if_pos hpr] at hb; cases hb; exact hpr.1
        · rw [if_neg hpr] at hb; cases hb; exact hacc _ rfl
    obtain ⟨ihn, ihs⟩ := ih (nextStep now acc pr) hacc'
    constructor
    · intro hr
      obtain ⟨h1, h2⟩ := ihn hr
      cases acc with
      | some best =>
        exfalso
        simp only [nextStep] at h1
        by_cases hpr : now < pr.2 ∧ pr.2 < best.2
        · rw [if_pos hpr] at h1; cases h1
        · rw [if_neg hpr] at h1; cases h1
      | none =>
        simp only [nextStep] at h1
        by_cases hpr : now < pr.2
        · rw [if_pos hpr] at h1; cases h1
        · refine ⟨rfl, ?_⟩
          intro p hp
          rcases List.mem_cons.mp hp with rfl | hp'
          · omega
          · exact h2 p hp'
    · intro b hb
      obtain ⟨hb1, hb2, hb3, hb4⟩ := ihs b hb
      refine ⟨hb1, ?_, ?_, ?_⟩
      · rcases hb2 with hb2 | hb2
        · cases acc with
          | none =>
            simp only [nextStep] at hb2
            by_cases hpr : now < pr.2
            · rw [if_pos hpr] at hb2; cases hb2; exact Or.inr (List.mem_cons_self _ _)
            · rw [if_neg hpr] at hb2; cases hb2
          | some best =>
            simp only [nextStep] at hb2
            by_cases hpr : now < pr.2 ∧ pr.2 < best.2
            · rw [if_pos hpr] at hb2; cases hb2; exact Or.inr (List.mem_cons_self _ _)
            · rw [if_neg hpr] at hb2; exact Or.inl hb2
        · exact Or.inr (List.mem_cons_of_mem _ hb2)
      · intro a ha
        subst ha
        have := hb3
        simp only [nextStep] at this
        by_cases hpr : now < pr.2 ∧ pr.2 < a.2
        · rw [if_pos hpr] at this
          exact Nat.le_trans (this pr rfl) (Nat.le_of_lt hpr.2)
        · rw [if_neg hpr] at this
          exact this a rfl
      · intro p hp hpe
        rcases List.mem_cons.mp hp with rfl | hp'
        · cases acc with
          | none =>
            have := hb3
            simp only [nextStep] at this
            rw [if_pos hpe] at this
            exact this p rfl
          | some best =>
            have := hb3
            simp only [nextStep] at this
            by_cases hpr : now < p.2 ∧ p.2 < best.2
            · rw [if_pos hpr] at this; exact this p rfl
            · rw [if_neg hpr] at this
              have hb5 := this best rfl
              omega
        · exact hb4 p hp' hpe

/-- C2: `updateNextPrayerTimer` selects, among all entries excluding the
preparatory-only entry Imsak, the entry with the smallest instant strictly
greater than now (none when every such entry has passed); on the example
schedule `Subuh = 05:59`, `Zohor = 13:05`: at `now = 05:59:00` the current
prayer is Subuh, the next prayer is Zohor at 13:05 with remaining time
7h 6m 0s (`formatTimeDifference` of `next.time − now`), and at
`now = 13:05:01` the current prayer is Zohor. -/
theorem C2_next_prayer_selection (sched : Schedule) (now : Nat) :
    (updateNextPrayerTimer sched now = none → ∀ p ∈ entryListNI sched, p.2 ≤ now)
    ∧ (∀ nb, updateNextPrayerTimer sched now = some nb →
        nb ∈ entryListNI sched ∧ now < nb.2
          ∧ ∀ p ∈ entryListNI sched, now < p.2 → nb.2 ≤ p.2)
    ∧ checkAndUpdatePrayerHighlight exampleSchedule 21540000 = some "Subuh"
    ∧ updateNextPrayerTimer exampleSchedule 21540000 = some ("Zohor", 47100000)
    ∧ formatTimeDifference (47100000 - 21540000) = (7, 6, 0)
    ∧ checkAndUpdatePrayerHighlight exampleSchedule 47101000 = some "Zohor" := by
  have h := foldl_min_spec now (entryListNI sched) none (fun b hb => by cases hb)
  rw [← next_eq_fold] at h
  refine ⟨fun hnone => (h.1 hnone).2, ?_, by decide, by decide, by decide, by decide⟩
  intro nb hnb
  obtain ⟨h1, h2, _, h4⟩ := h.2 nb hnb
  rcases h2 with h2 | h2
  · cases h2
  · exact ⟨h2, h1, h4⟩

/-- Witness for C2 at the example instant `now = 05:59:00`: the selected next
prayer `(Zohor, 13:05)` is a schedule entry, lies strictly after now, and is
minimal among entries after now. -/
theorem C2_next_prayer_selection_witness :
    ("Zohor", 47100000) ∈ entryListNI exampleSchedule ∧ 21540000 < 47100000
      ∧ ∀ p ∈ entryListNI exampleSchedule, 21540000 < p.2 → 47100000 ≤ p.2 :=
  (C2_next_prayer_selection exampleSchedule 21540000).2.1 ("Zohor", 47100000) (by decide)

/-- C3: when now is strictly after every non-Imsak entry's instant, the timer
reports no next prayer (`nextPrayer = null`, `nextTimeMs = null`, modelled as
`none`) and displays the explicit all-prayers-complete message instead of a
remaining time; this path is a total computation (no error is raised). -/
theorem C3_all_prayers_complete (sched : Schedule) (now : Nat)
    (h : ∀ p ∈ entryListNI sched, p.2 < now) :
    updateNextPrayerTimer sched now = none
      ∧ nextPrayerDisplay sched now = allPrayersCompleteMsg := by
  have hmin := foldl_min_spec now (entryListNI sched) none (fun b hb => by cases hb)
  rw [← next_eq_fold] at hmin
  have hnone : updateNextPrayerTimer sched now = none := by
    cases hr : updateNextPrayerTimer sched now with
    | none => rfl
    | some nb =>
      obtain ⟨h1, h2, _, _⟩ := hmin.2 nb hr
      rcases h2 with h2 | h2
      · cases h2
      · exact absurd h1 (by have := h nb h2; omega)
  refine ⟨hnone, ?_⟩
  unfold nextPrayerDisplay
  rw [hnone]

/-- Witness for C3: on the example schedule after the last entry
(`now = 13:06:40`) the timer is none and the completion message is shown. -/
theorem C3_all_prayers_complete_witness :
    updateNextPrayerTimer exampleSchedule 47200000 = none
      ∧ nextPrayerDisplay exampleSchedule 47200000 = allPrayersCompleteMsg :=
  C3_all_prayers_complete exampleSchedule 47200000 (by decide)

/-- C4: for every non-negative millisecond difference, `formatTimeDifference`
returns hours, minutes, seconds with `hours*3600 + mins*60 + secs =
⌊diffMs/1000⌋`, `secs < 60` and `mins < 60` (all components are `Nat`, hence
non-negative). -/
theorem C4_format_time_difference (diffMs : Nat) :
    (formatTimeDifference diffMs).1 * 3600 + (formatTimeDifference diffMs).2.1 * 60
        + (formatTimeDifference diffMs).2.2 = diffMs / 1000
      ∧ (formatTimeDifference diffMs).2.1 < 60
      ∧ (formatTimeDifference diffMs).2.2 < 60 := by
  unfold formatTimeDifference
  refine ⟨?_, ?_, ?_⟩ <;> simp <;> omega

/-- Once a cue file is in the fired set, polling it never fires again while
the set is not cleared. -/
theorem pollCue_of_fired (target : Int) (f : String) :
    ∀ (polls : List Int) (s : Finset String), f ∈ s → pollCue target f s polls = 0 := by
  intro polls
  induction polls with
  | nil => intro s _; rfl
  | cons now rest ih =>
    intro s hf
    have hfalse : shouldPlayAudio now target s f = false := by
      unfold shouldPlayAudio
      simp [hf]
    unfold pollCue checkCueOnce
    rw [hfalse]
    simp [ih s hf]

/-- C5: `shouldPlayAudio` returns true iff `|now − target|` is within the
1000 ms tolerance and the file is not in the fired set; after `markFired`
every further call for that file (same reset period) returns false; hence a
polling run — e.g. every second through the whole tolerance window — fires a
given cue at most once. -/
theorem C5_cue_fires_at_most_once (now target : Int) (s : Finset String) (f : String) :
    (shouldPlayAudio now target s f = true ↔
        ((now - target).natAbs < AUDIO_TRIGGER_THRESHOLD ∧ f ∉ s))
      ∧ shouldPlayAudio now target (markFired f s) f = false
      ∧ ∀ polls : List Int, pollCue target f s polls ≤ 1 := by
  refine ⟨?_, ?_, ?_⟩
  · unfold shouldPlayAudio
    simp
  · unfold shouldPlayAudio markFired
    simp
  · intro polls
    induction polls generalizing s with
    | nil => exact Nat.zero_le 1
    | cons p rest ih =>
      unfold pollCue checkCueOnce
      cases hs : shouldPlayAudio p target s f
      · simpa using ih s
      · simp only [if_pos rfl]
        have h0 := pollCue_of_fired target f rest (markFired f s)
          (Finset.mem_insert_self f s)
        simp [h0]

/-- The month names used by `formatDate` (script.js lines 246-247). -/
def monthNamesEn : List String :=
  ["Jan", "Feb", "Mar", "Apr", "May", "Jun", "Jul", "Aug", "Sep", "Oct", "Nov", "Dec"]

/-- A JavaScript `Date` as the data layer reads it: `getFullYear()`, 0-based
`getMonth()`, 1-based `getDate()`. -/
structure JSDate where
  year : Nat
  month : Nat
  day : Nat
deriving Repr, DecidableEq

/-- JavaScript `str.slice(-2)`: the last two characters (the whole string if shorter). -/
def sliceLast2 (s : String) : String :=
  String.mk (s.data.drop (s.data.length - 2))

/-- Function `formatDate` (script.js lines 244-251): the CSV day key `d-Mon-yy`. -/
def formatDate (d : JSDate) : String :=
  toString d.day ++ "-" ++ monthNamesEn.getD d.month "undefined" ++ "-"
    ++ sliceLast2 (toString d.year)

/-- Gregorian leap-year rule, as JavaScript `Date` applies when normalising
an out-of-range `setDate` argument. -/
def isLeapYear (y : Nat) : Bool :=
  (y % 4 == 0 && y % 100 != 0) || (y % 400 == 0)

/-- Days in a 0-based month of the given year. -/
def daysInMonth (y m : Nat) : Nat :=
  [31, if isLeapYear y then 29 else 28, 31, 30,
    31, 30, 31, 31, 30, 31, 30, 31].getD m 31

/-- JavaScript `Date` month/day normalisation: while the day exceeds the
month's length, move to the next month (rolling the year after December).
The loop shrinks the day by at least 28 each round, so a fuel of `d`
(consumed one per round) is never exhausted before the loop ends. -/
def setDateNormGo : Nat → Nat → Nat → Nat → JSDate
  | 0, y, m, d => ⟨y, m, d⟩
  | fuel + 1, y, m, d =>
    if daysInMonth y m < d then
      if m = 11 then setDateNormGo fuel (y + 1) 0 (d - daysInMonth y m)
      else setDateNormGo fuel y (m + 1) (d - daysInMonth y m)
    else ⟨y, m, d⟩

/-- Entry point of the normalisation loop. -/
def setDateNorm (y m d : Nat) : JSDate :=
  setDateNormGo d y m d

/-- Call `futureDate.setDate(today.getDate() + i)` (script.js lines 224-225):
today's date advanced by `i` days. -/
def addDays (date : JSDate) (i : Nat) : JSDate :=
  setDateNorm date.year date.month (date.day + i)

/-- The mutable application state touched by the date-change and CSV-loading
code: `this.state` restricted to the fields those functions read or write. -/
structure AppState where
  csvDataRaw : String
  todayPrayerTimes : List (String × String)
  currentHijriDate : String
  currentDateKey : Option String
  audioPlayed : Finset String

/-- Expression `csvDataRaw.trim().split("\n")` as in `loadPrayerTimesForDate`. -/
def csvLines (csv : String) : List String :=
  splitOnChar '\n' (strTrim csv)

/-- Expression `line.split(",").map(cell => cell.trim())`. -/
def splitRow (line : String) : List String :=
  (splitOnChar ',' line).map strTrim

/-- Function `loadPrayerTimesForDate` (script.js lines 270-330).  Returns the updated
state and the function's boolean result: `false` when the CSV is missing, has
no data rows, or holds no row for the date key; on the first matching row,
builds the `todayPrayerTimes` record (header ↦ cell, truncated to the shorter
of the two lists as `idx < row.length` does) and sets the Hijri date and
current date key.  All failure paths return unchanged state (DOM error
display is out of scope); nothing throws.  `rowObjFor` is its header-to-cell
record (`headers.forEach` assignment, truncated to the shorter list as
`idx < row.length` does). -/
def rowObjFor (csv line : String) : List (String × String) :=
  (splitRow ((csvLines csv).headD "")).zip (splitRow line)

def loadPrayerTimesForDate (st : AppState) (date : JSDate) : AppState × Bool :=
  if st.csvDataRaw = "" then (st, false)
  else if (csvLines st.csvDataRaw).length < 2 then (st, false)
  else
    match ((csvLines st.csvDataRaw).drop 1).find?
        (fun line => (splitRow line).headD "" == formatDate date) with
    | none => (st, false)
    | some line =>
      ({ st with
          todayPrayerTimes := rowObjFor st.csvDataRaw line,
          currentHijriDate := ((rowObjFor st.csvDataRaw line).lookup "Date Hijri").getD "",
          currentDateKey := some (formatDate date) }, true)

/-- Function `checkDateChange` (script.js lines 460-469): when today's key differs from
the stored one and CSV data is present, reload prayer times for today. -/
def checkDateChange (st : AppState) (now : JSDate) : AppState :=
  if some (formatDate now) ≠ st.currentDateKey ∧ st.csvDataRaw ≠ "" then
    (loadPrayerTimesForDate st now).1
  else st

/-- The `startAudioClearInterval` callback (script.js lines 788-791): clear
the fired set (runs unconditionally every `AUDIO_CLEAR_INTERVAL` = 60 s). -/
def clearAudioPlayed (st : AppState) : AppState :=
  { st with audioPlayed := ∅ }

/-- The fallback loop of `loadCSVData` (script.js lines 223-230): try the
given day offsets in order, stopping at the first whose data loads. -/
def probeNextDays (st : AppState) (today : JSDate) : List Nat → AppState
  | [] => st
  | i :: rest =>
    let r := loadPrayerTimesForDate st (addDays today i)
    if r.2 then r.1 else probeNextDays r.1 today rest

/-- The date-selection portion of `loadCSVData` (script.js lines 217-231):
load today's row, else probe the next 7 days in order. -/
def loadCSVFallback (st : AppState) (today : JSDate) : AppState :=
  let r := loadPrayerTimesForDate st today
  if r.2 then r.1 else probeNextDays r.1 today [1, 2, 3, 4, 5, 6, 7]

/-- Whether the CSV has a data row (beyond the header line) whose first
trimmed cell is the given day key. -/
def csvHasDate (csv : String) (dateKey : String) : Bool :=
  ((csvLines csv).drop 1).any (fun line => (splitRow line).headD "" == dateKey)

/-- A small concrete JAKIM-format CSV with rows for 1-Jan-25 and 2-Jan-25. -/
def exampleCSV : String :=
  "Date Masihi,Date Hijri,Day,Imsak,Subuh,Syuruk,Zohor,Asar,Maghrib,Isyak\n" ++
  "1-Jan-25,1 Rejab 1446,Rabu,5:50 AM,5:59 AM,7:10 AM,1:05 PM,4:20 PM,7:05 PM,8:15 PM\n" ++
  "2-Jan-25,2 Rejab 1446,Khamis,5:51 AM,6:00 AM,7:11 AM,1:06 PM,4:21 PM,7:06 PM,8:16 PM"

/-- A state on day 1-Jan-25 with one cue already fired. -/
def exampleState : AppState :=
  { csvDataRaw := exampleCSV
    todayPrayerTimes := []
    currentHijriDate := ""
    currentDateKey := some "1-Jan-25"
    audioPlayed := {"subuh_adhan.mp3"} }

/-- Loading a date's prayer times succeeds exactly when the CSV has a row for
its day key. -/
theorem load_snd (st : AppState) (d : JSDate) :
    (loadPrayerTimesForDate st d).2 = csvHasDate st.csvDataRaw (formatDate d) := by
  unfold loadPrayerTimesForDate csvHasDate
  by_cases h1 : st.csvDataRaw = ""
  · rw [if_pos h1, h1]
    rfl
  · rw [if_neg h1]
    by_cases h2 : (csvLines st.csvDataRaw).length < 2
    · rw [if_pos h2]
      have hdrop : (csvLines st.csvDataRaw).drop 1 = [] := by
        rw [List.drop_eq_nil_iff]
        omega
      rw [hdrop]
      rfl
    · rw [if_neg h2]
      rcases hf : ((csvLines st.csvDataRaw).drop 1).find?
          (fun line => (splitRow line).headD "" == formatDate d) with _ | line
      · have hnone := List.find?_eq_none.mp hf
        exact (List.any_eq_false.mpr fun x hx => by simpa using hnone x hx).symm
      · exact (List.any_eq_true.mpr
          ⟨line, List.mem_of_find?_eq_some hf, List.find?_some hf⟩).symm

/-- A failed load leaves the state unchanged. -/
theorem load_fst_of_fail (st : AppState) (d : JSDate)
    (h : (loadPrayerTimesForDate st d).2 = false) :
    (loadPrayerTimesForDate st d).1 = st := by
  unfold loadPrayerTimesForDate at h ⊢
  by_cases h1 : st.csvDataRaw = ""
  · rw [if_pos h1]
  · rw [if_neg h1] at h ⊢
    by_cases h2 : (csvLines st.csvDataRaw).length < 2
    · rw [if_pos h2]
    · rw [if_neg h2] at h ⊢
      rcases hf : ((csvLines st.csvDataRaw).drop 1).find?
          (fun line => (splitRow line).headD "" == formatDate d) with _ | line
      · rfl
      · rw [hf] at h
        simp at h

/-- Loading never touches the fired cue set. -/
theorem load_audioPlayed (st : AppState) (d : JSDate) :
    (loadPrayerTimesForDate st d).1.audioPlayed = st.audioPlayed := by
  unfold loadPrayerTimesForDate
  by_cases h1 : st.csvDataRaw = ""
  · rw [if_pos h1]
  · rw [if_neg h1]
    by_cases h2 : (csvLines st.csvDataRaw).length < 2
    · rw [if_pos h2]
    · rw [if_neg h2]
      rcases hf : ((csvLines st.csvDataRaw).drop 1).find?
          (fun line => (splitRow line).headD "" == formatDate d) with _ | line <;> rfl

/-- C6 counterexample: on the concrete two-day CSV state, a new day
(2-Jan-25, detected against the stored key 1-Jan-25) makes `checkDateChange`
reload the schedule — the new-day branch runs, as the updated
`currentDateKey` shows — yet the fired cue set is NOT cleared: the cue file
fired on day D is still in the set immediately after the day change, contrary
to the claim that the cue state is cleared entirely immediately. -/
theorem C6_counterexample :
    (checkDateChange exampleState ⟨2025, 0, 2⟩).currentDateKey = some "2-Jan-25"
      ∧ (checkDateChange exampleState ⟨2025, 0, 2⟩).audioPlayed
          = {"subuh_adhan.mp3"}
      ∧ (checkDateChange exampleState ⟨2025, 0, 2⟩).audioPlayed ≠ ∅ := by
  refine ⟨by decide, by decide, by decide⟩

/-- C6 amended: `checkDateChange` never touches the fired cue set on a day
change; instead, the `startAudioClearInterval` callback clears it entirely
(unconditionally, every 60 s), after which every cue file is absent from the
set and hence eligible to fire again — so a cue fired on day D becomes
eligible again on day D+1 within one reset period of midnight, not at the
instant of the day change. -/
theorem C6_cue_state_reset (st : AppState) (now : JSDate) :
    (checkDateChange st now).audioPlayed = st.audioPlayed
      ∧ (clearAudioPlayed st).audioPlayed = ∅
      ∧ ∀ f : String, f ∉ (clearAudioPlayed st).audioPlayed := by
  refine ⟨?_, rfl, by simp [clearAudioPlayed]⟩
  unfold checkDateChange
  by_cases h : some (formatDate now) ≠ st.currentDateKey ∧ st.csvDataRaw ≠ ""
  · rw [if_pos h]
    exact load_audioPlayed st now
  · rw [if_neg h]

/-- The probe loop of `loadCSVData` selects the first offset whose day has
data, leaving the state unchanged when none does. -/
theorem probeNextDays_spec (st : AppState) (today : JSDate) :
    ∀ is : List Nat,
      probeNextDays st today is
        = match is.find? (fun i => csvHasDate st.csvDataRaw (formatDate (addDays today i))) with
          | some i => (loadPrayerTimesForDate st (addDays today i)).1
          | none => st := by
  intro is
  induction is with
  | nil => rfl
  | cons i rest ih =>
    unfold probeNextDays
    cases hc : csvHasDate st.csvDataRaw (formatDate (addDays today i))
    · have h2 : (loadPrayerTimesForDate st (addDays today i)).2 = false := by
        rw [load_snd, hc]
      rw [if_neg (by simp [h2]), List.find?_cons_of_neg _ (by simp [hc])]
      rw [load_fst_of_fail st (addDays today i) h2, ih]
    · have h2 : (loadPrayerTimesForDate st (addDays today i)).2 = true := by
        rw [load_snd, hc]
      rw [if_pos h2, List.find?_cons_of_pos _ (by simp [hc])]

/-- C9: for a date whose key is absent from the loaded CSV,
`loadPrayerTimesForDate` returns false with the state unchanged (no throw),
and the `loadCSVData` fallback then probes the next 7 days in order and uses
the first day for which data exists (unchanged state if none of them has
data). -/
theorem C9_not_found_fallback (st : AppState) (today : JSDate)
    (habsent : csvHasDate st.csvDataRaw (formatDate today) = false) :
    loadPrayerTimesForDate st today = (st, false)
      ∧ loadCSVFallback st today
          = match [1, 2, 3, 4, 5, 6, 7].find?
                (fun i => csvHasDate st.csvDataRaw (formatDate (addDays today i))) with
            | some i => (loadPrayerTimesForDate st (addDays today i)).1
            | none => st := by
  have h2 : (loadPrayerTimesForDate st today).2 = false := by
    rw [load_snd, habsent]
  have h1 : (loadPrayerTimesForDate st today).1 = st := load_fst_of_fail st today h2
  constructor
  · rw [Prod.ext_iff]
    exact ⟨h1, h2⟩
  · unfold loadCSVFallback
    rw [if_neg (by simp [h2]), h1]
    exact probeNextDays_spec st today [1, 2, 3, 4, 5, 6, 7]

/-- Witness for C9: 31-Dec-24 is absent from the example CSV, so the load
fails without error and the fallback probes forward, landing on offset 1
(1-Jan-25, crossing the month and year boundary). -/
theorem C9_not_found_fallback_witness :
    loadPrayerTimesForDate exampleState ⟨2024, 11, 31⟩ = (exampleState, false)
      ∧ loadCSVFallback exampleState ⟨2024, 11, 31⟩
          = match [1, 2, 3, 4, 5, 6, 7].find?
                (fun i => csvHasDate exampleState.csvDataRaw
                  (formatDate (addDays ⟨2024, 11, 31⟩ i))) with
            | some i => (loadPrayerTimesForDate exampleState (addDays ⟨2024, 11, 31⟩ i)).1
            | none => exampleState :=
  C9_not_found_fallback exampleState ⟨2024, 11, 31⟩ (by decide)

/-- The shape of the remote API response `fetchPrayerData` inspects: a status
string and, when present, the `prayerTime` month payload.  The per-day records
inside the payload are opaque here (each day serialised as one string); their
JSON round-trip through `localStorage` is lossless and modelled as identity. -/
structure ApiResponse where
  status : String
  prayerTime : Option (List String)
deriving Repr, DecidableEq

/-- The repository state `fetchPrayerData` touches: `localStorage` (cache) and
`this.state.monthlyPrayerData`, both as key-value lists where the newest
binding (assignment) shadows older ones. -/
structure RepoState where
  localStorageData : List (String × List String)
  monthlyPrayerData : List (String × List String)
deriving Repr, DecidableEq

/-- The `localStorage` cache key (part_000 line 388). -/
def cacheKeyOf (zone : String) (year month : Nat) : String :=
  "prayer_times_" ++ zone ++ "_" ++ toString year ++ "_" ++ toString month

/-- The `monthlyPrayerData` key (part_000 lines 393, 409). -/
def dataKeyOf (zone : String) (year month : Nat) : String :=
  zone ++ "_" ++ toString year ++ "_" ++ toString month

/-- Function `fetchPrayerData` (part_000 lines 387-424).  The network is an oracle
`remote` (`none` = fetch failure or non-OK HTTP status); the returned flag
records whether a remote fetch was issued.  A `localStorage` hit loads the
cached month without fetching; otherwise the response is accepted only with
status `"OK!"` and a present `prayerTime`, which is stored in both
`monthlyPrayerData` and `localStorage` (`setItem` quota failure, which the
source merely warns about, is not modelled); every failure is rethrown as the
single message the outer catch produces. -/
def fetchPrayerData (remote : String → Nat → Nat → Option ApiResponse)
    (st : RepoState) (zone : String) (year month : Nat) :
    Except String (RepoState × Bool) :=
  match st.localStorageData.lookup (cacheKeyOf zone year month) with
  | some cached =>
    .ok ({ st with
            monthlyPrayerData := (dataKeyOf zone year month, cached) :: st.monthlyPrayerData },
         false)
  | none =>
    match remote zone year month with
    | none => .error "Failed to fetch data from API"
    | some data =>
      if data.status = "OK!" then
        match data.prayerTime with
        | some pt =>
          .ok ({ localStorageData := (cacheKeyOf zone year month, pt) :: st.localStorageData,
                 monthlyPrayerData := (dataKeyOf zone year month, pt) :: st.monthlyPrayerData },
               true)
        | none => .error "Failed to fetch data from API"
      else .error "Failed to fetch data from API"

/-- C8: for every zone, year and month, if a first `fetchPrayerData` call
succeeds then its result is in the `localStorage` cache, and a second call is
served from the cache: it issues no remote fetch and yields the same month
data under the schedule key. -/
theorem C8_fetch_cache_idempotent (remote : String → Nat → Nat → Option ApiResponse)
    (st : RepoState) (zone : String) (year month : Nat)
    (st1 : RepoState) (fetched1 : Bool)
    (h : fetchPrayerData remote st zone year month = .ok (st1, fetched1)) :
    st1.localStorageData.lookup (cacheKeyOf zone year month) ≠ none
      ∧ ∃ st2, fetchPrayerData remote st1 zone year month = .ok (st2, false)
          ∧ st2.monthlyPrayerData.lookup (dataKeyOf zone year month)
              = st1.monthlyPrayerData.lookup (dataKeyOf zone year month) := by
  have cache_hit : ∀ (s : RepoState) (cached : List String),
      s.localStorageData.lookup (cacheKeyOf zone year month) = some cached →
      fetchPrayerData remote s zone year month
        = .ok ({ s with monthlyPrayerData :=
            (dataKeyOf zone year month, cached) :: s.monthlyPrayerData }, false) := by
    intro s cached hls
    unfold fetchPrayerData
    rw [hls]
  unfold fetchPrayerData at h
  split at h
  case _ cached hls =>
    injection h with h'
    injection h' with h1 h2
    subst h1
    have hls1 : List.lookup (cacheKeyOf zone year month) st.localStorageData = some cached := hls
    constructor
    · simp [hls1]
    · rw [cache_hit { st with monthlyPrayerData :=
          (dataKeyOf zone year month, cached) :: st.monthlyPrayerData } cached hls1]
      exact ⟨_, rfl, by simp [List.lookup]⟩
  case _ hls =>
    split at h
    · cases h
    · split at h
      · split at h
        case _ pt hpt =>
          injection h with h'
          injection h' with h1 h2
          subst h1
          have hls1 : List.lookup (cacheKeyOf zone year month)
              ((cacheKeyOf zone year month, pt) :: st.localStorageData) = some pt := by
            simp [List.lookup]
          constructor
          · simp [List.lookup]
          · rw [cache_hit
                { localStorageData := (cacheKeyOf zone year month, pt) :: st.localStorageData,
                  monthlyPrayerData := (dataKeyOf zone year month, pt) :: st.monthlyPrayerData }
                pt hls1]
            exact ⟨_, rfl, by simp [List.lookup]⟩
        · cases h
      · cases h

/-- A remote oracle that always answers a valid one-day month payload. -/
def exampleRemote : String → Nat → Nat → Option ApiResponse :=
  fun _ _ _ => some ⟨"OK!", some ["day1"]⟩

/-- The repository state after one successful remote fetch for SGR01 1/2025. -/
def exampleRepoAfter : RepoState :=
  { localStorageData := [(cacheKeyOf "SGR01" 2025 1, ["day1"])]
    monthlyPrayerData := [(dataKeyOf "SGR01" 2025 1, ["day1"])] }

/-- Witness for C8: after a first successful (remote) fetch from the empty
repository, the month is cached, and the second call is a cache hit with the
same data and no remote fetch. -/
theorem C8_fetch_cache_idempotent_witness :
    exampleRepoAfter.localStorageData.lookup (cacheKeyOf "SGR01" 2025 1) ≠ none
      ∧ ∃ st2, fetchPrayerData exampleRemote exampleRepoAfter "SGR01" 2025 1
            = .ok (st2, false)
          ∧ st2.monthlyPrayerData.lookup (dataKeyOf "SGR01" 2025 1)
              = exampleRepoAfter.monthlyPrayerData.lookup (dataKeyOf "SGR01" 2025 1) :=
  C8_fetch_cache_idempotent exampleRemote ⟨[], []⟩ "SGR01" 2025 1
    exampleRepoAfter true rfl

/-- The set of strings `parseTime` accepts, read off its checks: the trimmed
string splits on a single space into a time part and a modifier, the time
part splits on a single colon into two components, JavaScript `parseInt`
reads an hour in [1, 12] and a minute in [0, 59] from them (ignoring trailing
non-digit characters), and the modifier is exactly `"AM"` or `"PM"`. -/
def parseTimeAccepts (s : String) : Prop :=
  ∃ time modifier hourStr minuteStr, ∃ h m : Int,
    splitOnChar ' ' (strTrim s) = [time, modifier]
    ∧ splitOnChar ':' time = [hourStr, minuteStr]
    ∧ jsParseInt hourStr = some h ∧ jsParseInt minuteStr = some m
    ∧ 1 ≤ h ∧ h ≤ 12 ∧ 0 ≤ m ∧ m ≤ 59
    ∧ (modifier = "AM" ∨ modifier = "PM")

/-- C10 counterexample: `"5:09x AM"` is not of the form `"H:MM AM"`/`"H:MM
PM"` (its minute field is `"09x"`), yet `parseTime` accepts it — JavaScript
`parseInt` reads `9` and ignores the trailing `x` — instead of throwing as
the claim requires for every input outside that form. -/
theorem C10_counterexample : parseTime "5:09x AM" = some ⟨5, 9⟩ := by decide

/-- C10 amended: `parseTime` accepts exactly the strings of
`parseTimeAccepts` (single-space split, single-colon split, `parseInt`-read
hour in [1, 12] and minute in [0, 59] — leading sign and trailing garbage
tolerated by `parseInt` — and modifier exactly AM/PM); every accepted input
yields hour in [0, 23] and minute in [0, 59], with 12 AM ↦ hour 0 and
12 PM ↦ hour 12. -/
theorem C10_parse_time_accepts (s : String) :
    ((parseTime s).isSome ↔ parseTimeAccepts s)
      ∧ (∀ t, parseTime s = some t → t.hour ≤ 23 ∧ t.minute ≤ 59)
      ∧ parseTime "12:00 AM" = some ⟨0, 0⟩
      ∧ parseTime "12:00 PM" = some ⟨12, 0⟩ := by
  refine ⟨⟨?_, ?_⟩, ?_, by decide, by decide⟩
  · intro hsome
    rw [Option.isSome_iff_exists] at hsome
    obtain ⟨t, ht⟩ := hsome
    unfold parseTime at ht
    rcases h1 : splitOnChar ' ' (strTrim s) with _ | ⟨time, _ | ⟨modifier, _ | ⟨z, zs⟩⟩⟩ <;>
      rw [h1] at ht <;> try simp at ht
    rcases h2 : splitOnChar ':' time with _ | ⟨hourStr, _ | ⟨minuteStr, _ | ⟨w, ws⟩⟩⟩ <;>
      rw [h2] at ht <;> try simp at ht
    rcases h3 : jsParseInt hourStr with _ | hour <;> rw [h3] at ht <;>
      rcases h4 : jsParseInt minuteStr with _ | minute <;> rw [h4] at ht <;>
      try simp at ht
    obtain ⟨⟨hh1, hh2⟩, ⟨hm1, hm2⟩, hmod, hteq⟩ := ht
    exact ⟨time, modifier, hourStr, minuteStr, hour, minute, h1, h2, h3, h4,
      hh1, hh2, hm1, hm2, by tauto⟩
  · rintro ⟨time, modifier, hourStr, minuteStr, h, m, h1, h2, h3, h4,
      hh1, hh2, hm1, hm2, hmod⟩
    unfold parseTime
    simp only [h1, h2, h3, h4]
    rw [if_neg (by omega), if_neg (by omega), if_neg (by tauto)]
    rfl
  · intro t ht
    unfold parseTime at ht
    rcases h1 : splitOnChar ' ' (strTrim s) with _ | ⟨time, _ | ⟨modifier, _ | ⟨z, zs⟩⟩⟩ <;>
      rw [h1] at ht <;> try simp at ht
    rcases h2 : splitOnChar ':' time with _ | ⟨hourStr, _ | ⟨minuteStr, _ | ⟨w, ws⟩⟩⟩ <;>
      rw [h2] at ht <;> try simp at ht
    rcases h3 : jsParseInt hourStr with _ | hour <;> rw [h3] at ht <;>
      rcases h4 : jsParseInt minuteStr with _ | minute <;> rw [h4] at ht <;>
      try simp at ht
    obtain ⟨⟨hh1, hh2⟩, ⟨hm1, hm2⟩, hmod, hteq⟩ := ht
    subst hteq
    constructor
    · split_ifs with d1 d2 <;> simp <;> omega
    · simp
      omega

/-- Witness for C10 on the accepted input "5:59 AM": it satisfies the
acceptance predicate, and its parse ⟨5, 59⟩ is within the 24-hour ranges. -/
theorem C10_parse_time_accepts_witness :
    parseTimeAccepts "5:59 AM"
      ∧ (⟨5, 59⟩ : Time24).hour ≤ 23 ∧ (⟨5, 59⟩ : Time24).minute ≤ 59 :=
  ⟨(C10_parse_time_accepts "5:59 AM").1.mp (by decide),
   (C10_parse_time_accepts "5:59 AM").2.1 ⟨5, 59⟩ (by decide)⟩
